import Mathlib

set_option maxRecDepth 100000

/-!
Verification development for the artcube image-enrichment scripts.

The definitions below are a shallow embedding of the image pipeline of
`enrich_dataset.py` and `resize_images.py`:

* Python strings are modelled as `String` / `List Char`; the string
  operations used by the scripts (`in`, `split`, `rsplit`, `replace`,
  `lower`, the two regex substitutions) are implemented as executable
  list functions with structural recursion so that concrete runs reduce
  inside the kernel.
* File sizes are modelled in bytes (`Nat`); the scripts compare megabyte
  floats obtained by dividing by 1024*1024, which is an exact comparison
  on byte counts, e.g. `size_mb > 10` is `bytes > 10 * 1048576` and
  `size_mb > max_size_mb * 1.5` is `2 * bytes > 3 * maxBytes`.
* The JPEG encoder (`img.save` followed by `os.path.getsize`) is an
  oracle `enc : quality -> width -> height -> size in bytes`.
* Filesystem effects are a trace of events over an association-list
  filesystem, so that intermediate states are observable.
-/

/-! ### Character and list-of-characters utilities (Python str operations) -/

/-- ASCII lower-casing of one character, as Python `str.lower` acts on the
ASCII range (the URLs handled by the scripts are ASCII). -/
def charLower (c : Char) : Char :=
  if 'A' ≤ c ∧ c ≤ 'Z' then Char.ofNat (c.toNat + 32) else c

/-- Python `str.lower` on a character list. -/
def toLowerL (l : List Char) : List Char := l.map charLower

/-- Fuel-driven splitter: Python `str.split(sep)` for a non-empty `sep`,
scanning left to right and consuming non-overlapping occurrences.  The
fuel argument makes the recursion structural; it is called with fuel
`l.length + 1`, which is enough to consume the whole input. -/
def splitOnFuel (sep : List Char) : Nat → List Char → List Char → List (List Char)
  | 0, l, acc => [acc.reverse ++ l]
  | fuel + 1, l, acc =>
    match l with
    | [] => [acc.reverse]
    | c :: cs =>
      if sep.isPrefixOf (c :: cs) then
        acc.reverse :: splitOnFuel sep fuel (List.drop sep.length (c :: cs)) []
      else
        splitOnFuel sep fuel cs (c :: acc)

/-- Python `l.split(sep)` on character lists. -/
def splitOnL (sep l : List Char) : List (List Char) :=
  splitOnFuel sep (l.length + 1) l []

/-- Python `sep in l` (substring test) on character lists: the split has at
least two pieces exactly when the separator occurs. -/
def containsSubL (l sep : List Char) : Bool :=
  decide (2 ≤ (splitOnL sep l).length)

/-- Join character-list pieces with a separator (Python `sep.join`). -/
def joinWith (sep : List Char) : List (List Char) → List Char
  | [] => []
  | [x] => x
  | x :: y :: xs => x ++ sep ++ joinWith sep (y :: xs)

/-- Python `l.replace(pat, rep)`: split on the pattern and re-join with the
replacement. -/
def replaceAllL (l pat rep : List Char) : List Char :=
  joinWith rep (splitOnL pat l)

/-- The last `/`-separated segment of a character list (everything after the
final slash; the whole list when there is no slash). -/
def lastSegment (l : List Char) : List Char :=
  (l.reverse.takeWhile (fun c => c ≠ '/')).reverse

/-- Python `l.rsplit('/', 1)[0]`: everything before the final slash; the
whole list when there is no slash. -/
def dropLastSegment (l : List Char) : List Char :=
  if l.contains '/' then ((l.reverse.dropWhile (fun c => c ≠ '/')).drop 1).reverse
  else l

/-- Does a segment match the regex `\d+px-[^/]+` (used in
`re.sub(r'/\d+px-[^/]+$', '', url)`)?  Since a digit run followed by
`px-` can only start at the beginning of the segment right after the
slash, this is: a non-empty digit prefix, then `px-`, then at least one
more character. -/
def isPxSegment (s : List Char) : Bool :=
  let ds := s.takeWhile Char.isDigit
  decide (ds ≠ []) &&
    List.isPrefixOf ['p', 'x', '-'] (s.drop ds.length) &&
    decide (ds.length + 4 ≤ s.length)

/-- Python `re.sub(r'/\d+px-[^/]+$', '', url)` on character lists: drop the
final `/<width>px-<name>` portion when present, otherwise return the input
unchanged. -/
def subPxSuffix (l : List Char) : List Char :=
  if l.contains '/' && isPxSegment (lastSegment l) then dropLastSegment l else l

/-! ### String wrappers -/

/-- Python `sub in s` on strings. -/
def containsSub (s sub : String) : Bool := containsSubL s.data sub.data

/-- Python `s.lower()` (ASCII range). -/
def toLowerS (s : String) : String := ⟨toLowerL s.data⟩

/-- Python `s.replace(pat, rep)`. -/
def replaceAllS (s pat rep : String) : String := ⟨replaceAllL s.data pat.data rep.data⟩

/-- Python `s.rsplit('/', 1)[0]`. -/
def dropLastSegmentS (s : String) : String := ⟨dropLastSegment s.data⟩

/-- Python `s.split(sep)` returning strings. -/
def splitOnS (s sep : String) : List String :=
  (splitOnL sep.data s.data).map (fun l => (⟨l⟩ : String))

/-- Python `re.sub(r'/\d+px-[^/]+$', '', s)`. -/
def subPxSuffixS (s : String) : String := ⟨subPxSuffix s.data⟩

/-! ### Filename Codec (`sanitize_filename`, enrich_dataset.py lines 41-51) -/

/-- The characters removed by `re.sub(r'[<>:"/\\|?*]', '', text)`. -/
def badChars : List Char := ['<', '>', ':', '"', '/', '\\', '|', '?', '*']

/-- The ASCII whitespace class of the regex `\s` (the scripts only meet
ASCII whitespace in artist and title strings). -/
def isSpaceChar (c : Char) : Bool :=
  c = ' ' || c = '\t' || c = '\n' || c = '\r' || c = '\x0b' || c = '\x0c'

/-- Replace every maximal run of characters satisfying `p` by the single
character `r` (the effect of `re.sub(p+, r, text)`).  The boolean flag
records whether the previous character was part of a run. -/
def collapseRunsGo (p : Char → Bool) (r : Char) : Bool → List Char → List Char
  | _, [] => []
  | prevRun, c :: cs =>
    if p c then
      if prevRun then collapseRunsGo p r true cs
      else r :: collapseRunsGo p r true cs
    else c :: collapseRunsGo p r false cs

/-- Replace every maximal `p`-run by one `r`. -/
def collapseRuns (p : Char → Bool) (r : Char) (l : List Char) : List Char :=
  collapseRunsGo p r false l

/-- Python `text.strip('_')`. -/
def stripUnderscores (l : List Char) : List Char :=
  ((l.dropWhile (fun c => c = '_')).reverse.dropWhile (fun c => c = '_')).reverse

/-- `sanitize_filename` on a character list: remove `<>:"/\|?*`, collapse
whitespace runs to `_`, collapse `_` runs, strip leading and trailing `_`,
truncate to 200 characters. -/
def sanitizeChars (l : List Char) : List Char :=
  let t1 := l.filter (fun c => !(badChars.contains c))
  let t2 := collapseRuns isSpaceChar '_' t1
  let t3 := collapseRuns (fun c => c = '_') '_' t2
  let t4 := stripUnderscores t3
  t4.take 200

/-- `WikipediaArtEnricher.sanitize_filename`. -/
def sanitize_filename (s : String) : String := ⟨sanitizeChars s.data⟩

/-- The cache key of an artwork: `f"{sanitized_artist}_{sanitized_title}"`
(enrich_dataset.py lines 577-579). -/
def deriveKey (artist title : String) : String :=
  ⟨sanitizeChars artist.data ++ '_' :: sanitizeChars title.data⟩

/-! ### URL Classifier (`_is_svg_url`, enrich_dataset.py lines 207-213) -/

/-- `_is_svg_url`: empty URLs are not SVG; otherwise test the lowered URL
for `.svg`, `%2Esvg`, `%2esvg` (the middle test can never fire on a
lowered string, exactly as in the source). -/
def isSvgUrl (url : String) : Bool :=
  if url = "" then false
  else
    containsSub (toLowerS url) ".svg" ||
    containsSub (toLowerS url) "%2Esvg" ||
    containsSub (toLowerS url) "%2esvg"

/-! ### Thumbnail-to-Original Resolver (`_thumbnail_to_original`,
enrich_dataset.py lines 401-447) -/

/-- Namespace preservation in the Format 3 branch (lines 440-444): restore
`/commons/` or `/en/` into the rewritten URL when the thumbnail URL had it
and the rewrite lost it. -/
def fixNamespaces (thumbnailUrl original : String) : String :=
  if containsSub thumbnailUrl "/commons/" && !(containsSub original "/commons/") then
    replaceAllS original "/wikipedia/" "/wikipedia/commons/"
  else if containsSub thumbnailUrl "/en/" && !(containsSub original "/en/") &&
      !(containsSub original "/commons/") then
    replaceAllS original "/wikipedia/" "/wikipedia/en/"
  else original

/-- Formats 2 and 3 of `_thumbnail_to_original` (lines 430-447), reached
when Format 1 does not return: an `upload.wikimedia.org` URL without
`/thumb/` is already original; else a URL containing `thumb` (lowered) and
`px-` goes through the `px-` suffix strip, the `/thumb/` → `/` rewrite and
the namespace fix; else the function falls off the end and yields `None`
(the final `return None` in the source is unreachable dead code). -/
def thumbFallback (url : String) : Option String :=
  if containsSub url "upload.wikimedia.org" && !(containsSub url "/thumb/") then
    some url
  else if containsSub (toLowerS url) "thumb" && containsSub url "px-" then
    some (fixNamespaces url (replaceAllS (subPxSuffixS url) "/thumb/" "/"))
  else none

/-- `_thumbnail_to_original`.  Format 1 (lines 408-428) handles URLs with a
`/thumb/` marker that split into exactly two parts, reconstructing the
original path under the detected namespace; every fall-through path of the
source continues with `thumbFallback`. -/
def thumbnailToOriginal (url : String) : Option String :=
  if url = "" then none
  else if containsSub url "/thumb/" then
    let parts := splitOnS url "/thumb/"
    if parts.length = 2 then
      let originalPath := dropLastSegmentS (parts.getD 1 "")
      if containsSub url "upload.wikimedia.org" then
        if containsSub url "/commons/thumb/" then
          some ("https://upload.wikimedia.org/wikipedia/commons/" ++ originalPath)
        else if containsSub url "/en/thumb/" then
          some ("https://upload.wikimedia.org/wikipedia/en/" ++ originalPath)
        else
          some ("https://upload.wikimedia.org/wikipedia/commons/" ++ originalPath)
      else if containsSub url "wikipedia.org" then
        if containsSub url "/commons/thumb/" then
          some ("https://upload.wikimedia.org/wikipedia/commons/" ++ originalPath)
        else if containsSub url "/en/thumb/" then
          some ("https://upload.wikimedia.org/wikipedia/en/" ++ originalPath)
        else thumbFallback url
      else thumbFallback url
    else thumbFallback url
  else thumbFallback url

/-! ### Image Locator (`get_image_url`, enrich_dataset.py lines 215-399)

The three network requests of the cascade (the pageimages query, the
summary query inside `get_page_summary`, and the rendered page fetch) are
modelled by `NetResp` outcomes supplied as arguments; `exc` is a raised
network exception, `httpError` a non-200 response.  The regex scanning of
the fetched page (methods 3, 4 and 5, lines 273-392) is abstracted as a
pure extraction function `String → Option String` of the markup, since
the claims about this function concern its cascade and error handling. -/

/-- Outcome of one HTTP request. -/
inductive NetResp (α : Type) where
  | ok (val : α)
  | httpError
  | exc
deriving DecidableEq

/-- The `pageimages` API answer: optional original and thumbnail source
URLs (lines 237-256). -/
structure PageImagesData where
  original : Option String
  thumbnail : Option String
deriving DecidableEq

/-- The page-summary answer: an optional thumbnail source URL
(lines 258-264). -/
structure SummaryData where
  thumb : Option String
deriving DecidableEq

/-- Method 1 candidate selection (lines 237-256): prefer a non-SVG
original; otherwise convert the thumbnail and accept it when the
conversion succeeds and is not SVG. -/
def pickMethod1 (d : PageImagesData) : Option String :=
  let fromOriginal : Option String :=
    match d.original with
    | some u => if isSvgUrl u then none else some u
    | none => none
  match fromOriginal with
  | some u => some u
  | none =>
    match d.thumbnail with
    | some tu =>
      match thumbnailToOriginal tu with
      | some ou => if isSvgUrl ou then none else some ou
      | none => none
    | none => none

/-- Method 2 candidate selection (lines 258-264): resolve the summary
thumbnail and accept a non-SVG result. -/
def pickMethod2 (s : SummaryData) : Option String :=
  match s.thumb with
  | some tu =>
    match thumbnailToOriginal tu with
    | some ou => if isSvgUrl ou then none else some ou
    | none => none
  | none => none

/-- The cascade after method 1 yielded nothing.  `get_page_summary` catches
its own network failures and returns `None`, so both failure outcomes of
the summary request continue the cascade; the rendered-page stage is
wrapped in `try ... except: pass` followed by `return None`, so any
failure there ends the whole call with `None`.  The second component
lists the stages whose request was issued. -/
def getImageUrlAfter1 (m2 : NetResp SummaryData) (m3 : NetResp String)
    (extract : String → Option String) : Option String × List Nat :=
  let m2res : Option String :=
    match m2 with
    | .ok s => pickMethod2 s
    | .httpError => none
    | .exc => none
  match m2res with
  | some u => (some u, [1, 2])
  | none =>
    match m3 with
    | .ok html =>
      match extract html with
      | some u => (some u, [1, 2, 3])
      | none => (none, [1, 2, 3])
    | .httpError => (none, [1, 2, 3])
    | .exc => (none, [1, 2, 3])

/-- `get_image_url`: the whole body sits inside one `try`, so an exception
raised by the very first request is caught at line 397 and the function
returns `None` without attempting the later stages; a non-200 first
response falls through to method 2. -/
def getImageUrl (m1 : NetResp PageImagesData) (m2 : NetResp SummaryData)
    (m3 : NetResp String) (extract : String → Option String) :
    Option String × List Nat :=
  match m1 with
  | .exc => (none, [1])
  | .httpError => getImageUrlAfter1 m2 m3 extract
  | .ok d =>
    match pickMethod1 d with
    | some u => (some u, [1])
    | none => getImageUrlAfter1 m2 m3 extract

/-! ### Size-Bounded Transcoder
(`_resize_image_if_needed`, enrich_dataset.py lines 484-554, and
`resize_image_to_max_size`, resize_images.py lines 15-107; the two bodies
share the pre-scale computation and the quality loop verbatim). -/

/-- Raster formats appearing in the scripts. -/
inductive ImgFormat where
  | jpeg
  | png
  | gif
  | webp
  | other
deriving DecidableEq

/-- Contents of a file on disk: either raw downloaded bytes of some format
and byte count, or the result of an `img.save(..., format=..., quality=...)`
call at given dimensions. -/
inductive FileContent where
  | raw (fmt : ImgFormat) (sizeBytes : Nat)
  | encoded (fmt : ImgFormat) (quality : Nat) (width : Nat) (height : Nat)
deriving DecidableEq

/-- The format a file content carries. -/
def FileContent.format : FileContent → ImgFormat
  | .raw f _ => f
  | .encoded f _ _ _ => f

/-- A decoded input image: its on-disk format and byte size, and its pixel
dimensions as reported by `img.size`. -/
structure InputImage where
  fmt : ImgFormat
  sizeBytes : Nat
  width : Nat
  height : Nat
deriving DecidableEq

/-- One dimension-capping resize (the shared shape of both pre-scale
branches): when the long edge exceeds `maxDim`, pin the long edge to
`maxDim` and compute the other dimension by the same ratio with `int`
truncation; otherwise leave the size alone. -/
def scaleToMax (maxDim w h : Nat) : Nat × Nat :=
  if max w h > maxDim then
    if w > h then (maxDim, h * maxDim / w) else (w * maxDim / h, maxDim)
  else (w, h)

/-- The pre-scale step (enrich_dataset.py lines 513-531, resize_images.py
lines 50-72): a file over 10 MB (`current_size_mb > 10`) is capped to an
aggressive 1200 px long edge; otherwise a long edge over `max_dimension`
is capped to `max_dimension`.  `sizeBytes` is the byte size of the input
file, so `current_size_mb > 10` is `sizeBytes > 10 * 1048576`. -/
def preScale (sizeBytes maxDim w h : Nat) : Nat × Nat :=
  if sizeBytes > 10 * 1048576 then
    if max w h > 1200 then
      if w > h then (1200, h * 1200 / w) else (w * 1200 / h, 1200)
    else (w, h)
  else if max w h > maxDim then
    if w > h then (maxDim, h * maxDim / w) else (w * maxDim / h, maxDim)
  else (w, h)

/-- One encode attempt of the quality loop: the 0-based value of the
`attempts` counter when the encode ran, the quality passed to `img.save`,
the dimensions of `img` at that moment, and the measured output size in
bytes. -/
structure EncodeStep where
  attempt : Nat
  quality : Nat
  width : Nat
  height : Nat
  size : Nat
deriving DecidableEq

/-- The quality loop (enrich_dataset.py lines 533-550, resize_images.py
lines 74-93), producing the list of encode attempts in order.  Each
iteration encodes at the current quality and dimensions and measures the
size; a size within budget ends the loop; otherwise, when the attempt
counter exceeds 5 and the size exceeds 1.5 times the budget
(`2 * size > 3 * maxBytes` in bytes), both dimensions shrink to 90 %
with `int` truncation, and the quality drops by 5 with a floor of 50.
The fuel is the remaining number of attempts out of `max_attempts = 20`. -/
def compressLoopAux (enc : Nat → Nat → Nat → Nat) (maxBytes : Nat) :
    Nat → Nat → Nat → Nat → Nat → List EncodeStep
  | 0, _, _, _, _ => []
  | fuel + 1, attempts, quality, w, h =>
    let size := enc quality w h
    let step : EncodeStep := ⟨attempts, quality, w, h, size⟩
    if size ≤ maxBytes then [step]
    else
      let dims : Nat × Nat :=
        if attempts > 5 ∧ 2 * size > 3 * maxBytes then (w * 9 / 10, h * 9 / 10)
        else (w, h)
      step :: compressLoopAux enc maxBytes fuel (attempts + 1)
        (max 50 (quality - 5)) dims.1 dims.2

/-- The quality loop started as in the source: `quality = 85`,
`attempts = 0`, `max_attempts = 20`. -/
def compressLoop (enc : Nat → Nat → Nat → Nat) (maxBytes w h : Nat) :
    List EncodeStep :=
  compressLoopAux enc maxBytes 20 0 85 w h

/-! ### Filesystem and network effects -/

/-- Effects performed by the scripts: an HTTP request, a full file write,
`os.rename` / `os.replace`, and `os.remove`. -/
inductive Ev where
  | net (url : String)
  | write (path : String) (content : FileContent)
  | rename (src : String) (dst : String)
  | remove (path : String)
deriving DecidableEq

/-- A filesystem: an association list from path to file content. -/
abbrev FS := List (String × FileContent)

/-- Content stored at a path. -/
def fsLookup : FS → String → Option FileContent
  | [], _ => none
  | e :: fs, p => if e.1 = p then some e.2 else fsLookup fs p

/-- Delete a path. -/
def fsRemove : FS → String → FS
  | [], _ => []
  | e :: fs, p => if e.1 = p then fsRemove fs p else e :: fsRemove fs p

/-- Write content at a path. -/
def fsInsert (fs : FS) (p : String) (c : FileContent) : FS :=
  (p, c) :: fsRemove fs p

/-- Apply one event to a filesystem.  A rename of a missing source leaves
the filesystem unchanged (the scripts only rename files they created). -/
def applyEv (fs : FS) : Ev → FS
  | .net _ => fs
  | .write p c => fsInsert fs p c
  | .rename src dst =>
    match fsLookup fs src with
    | some c => fsInsert (fsRemove fs src) dst c
    | none => fs
  | .remove p => fsRemove fs p

/-- Run a list of events. -/
def runEvents (fs : FS) (evs : List Ev) : FS :=
  evs.foldl applyEv fs

/-- All intermediate filesystem states while a list of events runs,
starting with the initial state (what a concurrent reader could observe
at each instant). -/
def fsStates (fs : FS) : List Ev → List FS
  | [] => [fs]
  | e :: es => fs :: fsStates (applyEv fs e) es

/-- `_resize_image_if_needed(input_path, output_path, max_size_mb)` as the
list of filesystem events it performs (enrich_dataset.py lines 484-554):
an input already under budget is renamed into place; otherwise every
iteration of the quality loop saves a JPEG directly at `output_path`
(`img.save(output_path, format='JPEG', ...)`), and the temporary input
file is removed at the end. -/
def resizeIfNeededEvents (enc : Nat → Nat → Nat → Nat) (img : InputImage)
    (maxBytes : Nat) (inputPath outputPath : String) : List Ev :=
  if img.sizeBytes ≤ maxBytes then [Ev.rename inputPath outputPath]
  else
    let dims := preScale img.sizeBytes 2000 img.width img.height
    ((compressLoop enc maxBytes dims.1 dims.2).map
      (fun s => Ev.write outputPath (.encoded .jpeg s.quality s.width s.height)))
    ++ [Ev.remove inputPath]

/-- `resize_image_to_max_size(image_path, max_size_mb, max_dimension)` as
its filesystem events (resize_images.py lines 15-107): a file already
under budget is left untouched; otherwise every quality-loop iteration
saves to `image_path + '.tmp'` and the temp file finally replaces the
original with `os.replace`. -/
def resizeToMaxSizeEvents (enc : Nat → Nat → Nat → Nat) (img : InputImage)
    (maxBytes maxDim : Nat) (imagePath : String) : List Ev :=
  if img.sizeBytes ≤ maxBytes then []
  else
    let dims := preScale img.sizeBytes maxDim img.width img.height
    ((compressLoop enc maxBytes dims.1 dims.2).map
      (fun s => Ev.write (imagePath ++ ".tmp") (.encoded .jpeg s.quality s.width s.height)))
    ++ [Ev.rename (imagePath ++ ".tmp") imagePath]

/-- Outcome of the image download request in `download_image`
(enrich_dataset.py lines 449-482). -/
inductive Fetch where
  | ok (img : InputImage)
  | httpError
  | exc
deriving DecidableEq

/-- `download_image(image_url, filename)` as its events: a 200 response is
streamed to `filepath + '.tmp'` and then resized into place; a non-200
response does nothing further; a raised exception is answered by removing
the temp file.  (The `except` fallback inside the resize call, which
renames the temp file into place when PIL fails, is not modelled; no
claim depends on it.) -/
def downloadImageEvents (enc : Nat → Nat → Nat → Nat) (fetch : Fetch)
    (url : String) (maxBytes : Nat) (filepath : String) : List Ev :=
  Ev.net url ::
    match fetch with
    | .ok img =>
      Ev.write (filepath ++ ".tmp") (.raw img.fmt img.sizeBytes) ::
        resizeIfNeededEvents enc img maxBytes (filepath ++ ".tmp") filepath
    | .httpError => []
    | .exc => [Ev.remove (filepath ++ ".tmp")]

/-- The file content `_resize_image_if_needed` leaves at `output_path`,
obtained by running its events on a filesystem holding the downloaded
bytes at `input_path`. -/
def resizeIfNeededResult (enc : Nat → Nat → Nat → Nat) (img : InputImage)
    (maxBytes : Nat) (inputPath outputPath : String) : Option FileContent :=
  fsLookup
    (runEvents [(inputPath, FileContent.raw img.fmt img.sizeBytes)]
      (resizeIfNeededEvents enc img maxBytes inputPath outputPath))
    outputPath

/-- Atomicity as observable behaviour: while the events run, the canonical
path never holds anything except its initial content or the final result
(a reader never sees a partially processed intermediate there). -/
def noIntermediateObs (fs0 : FS) (evs : List Ev) (canonical : String) : Bool :=
  let initC := fsLookup fs0 canonical
  let finalC := fsLookup (runEvents fs0 evs) canonical
  (fsStates fs0 evs).all
    (fun fs => decide (fsLookup fs canonical = initC) ||
      decide (fsLookup fs canonical = finalC))

/-! ### The enrichment pipeline (`enrich_art_piece`, enrich_dataset.py
lines 556-662), modelled for its image-handling path.  The metadata
fields copied into the enriched record are not modelled; the result is
the `image_filename` value.  Each Wikipedia service call is represented
by one oracle consultation plus a `net` event. -/

/-- The extension probe order of the existence checks (lines 584 and 640). -/
def extensionList : List String := [".jpg", ".jpeg", ".png", ".webp", ".gif"]

/-- The cache check: the first `base + ext` present in the store, probing
extensions in order. -/
def findExisting (fs : FS) (base : String) : Option String :=
  (extensionList.map (fun e => base ++ e)).find? (fun f => (fsLookup fs f).isSome)

/-- Oracle answers for the network services consulted by
`enrich_art_piece`: `search_wikipedia`, `get_page_summary` (whose answer
feeds the infobox extraction), `get_image_url`, the image download, and
the JPEG encoder used while resizing. -/
structure EnrichOracle where
  search : String → Option String
  summaryData : String → Option (Option String)
  imageUrl : String → Option String
  fetch : String → Fetch
  encSize : Nat → Nat → Nat → Nat

/-- Did `download_image` return `True`? -/
def fetchOk : Fetch → Bool
  | .ok _ => true
  | .httpError => false
  | .exc => false

/-- `enrich_art_piece` for one artwork: derive the cache key, check the
Image Store under every accepted extension FIRST and return at once on a
hit with no further work; otherwise search Wikipedia, fetch summary and
infobox, locate an image URL, re-check the store, and download.  Returns
the `image_filename` value and the events performed. -/
def enrichArtPiece (o : EnrichOracle) (fs : FS) (artist title : String) :
    Option String × List Ev :=
  let base := deriveKey artist title
  match findExisting fs base with
  | some f => (some ("images/" ++ f), [])
  | none =>
    match o.search title with
    | none => (none, [Ev.net ("search:" ++ title)])
    | some wt =>
      let evSummary := [Ev.net ("search:" ++ title), Ev.net ("summary:" ++ wt)]
      let evInfobox :=
        match o.summaryData wt with
        | none => evSummary
        | some _ => evSummary ++ [Ev.net ("infobox:" ++ wt)]
      let evImage := evInfobox ++ [Ev.net ("imageurl:" ++ wt)]
      match o.imageUrl wt with
      | none => (none, evImage)
      | some url =>
        let fname := base ++ ".jpg"
        if (fsLookup fs fname).isSome then (some ("images/" ++ fname), evImage)
        else
          match findExisting fs base with
          | some f => (some ("images/" ++ f), evImage)
          | none =>
            let dl := downloadImageEvents o.encSize (o.fetch url) url 1048576 fname
            (if fetchOk (o.fetch url) then some ("images/" ++ fname) else none,
              evImage ++ dl)

/-- Modelled from the spec text of claim C4 (spec.md section 4.5 step 2):
the pre-scale that the claim describes, with the aggressive threshold
selected exactly when the input byte size exceeds ten times the byte
budget.  Used only to compare the claimed rule against `preScale`. -/
def preScaleSpec (sizeBytes budget maxDim w h : Nat) : Nat × Nat :=
  if sizeBytes > 10 * budget then
    if max w h > 1200 then
      if w > h then (1200, h * 1200 / w) else (w * 1200 / h, 1200)
    else (w, h)
  else if max w h > maxDim then
    if w > h then (maxDim, h * maxDim / w) else (w * maxDim / h, maxDim)
  else (w, h)

/-- The per-step relation the quality loop maintains between one encode
attempt and the next: the attempt counter increments, the quality decays
by 5 with floor 50, and the dimensions shrink to 90 % exactly when the
previous attempt had counter above 5 and size above 1.5 times the
budget. -/
def stepRel (maxBytes : Nat) (s t : EncodeStep) : Prop :=
  t.attempt = s.attempt + 1 ∧
  t.quality = max 50 (s.quality - 5) ∧
  (s.attempt > 5 ∧ 2 * s.size > 3 * maxBytes →
    t.width = s.width * 9 / 10 ∧ t.height = s.height * 9 / 10) ∧
  (¬(s.attempt > 5 ∧ 2 * s.size > 3 * maxBytes) →
    t.width = s.width ∧ t.height = s.height)

/-! ## Helper lemmas -/

theorem mem_of_mem_dropWhile {α : Type} {p : α → Bool} {a : α} :
    ∀ {l : List α}, a ∈ l.dropWhile p → a ∈ l := by
  intro l
  induction l with
  | nil => simp [List.dropWhile]
  | cons x xs ih =>
    intro hmem
    rw [List.dropWhile] at hmem
    by_cases hx : p x = true
    · simp only [hx] at hmem
      exact List.mem_cons_of_mem x (ih hmem)
    · simp only [Bool.not_eq_true] at hx
      simp only [hx] at hmem
      exact hmem

theorem collapseRunsGo_mem {p : Char → Bool} {r : Char} {c : Char} :
    ∀ {b : Bool} {l : List Char}, c ∈ collapseRunsGo p r b l →
      c = r ∨ (c ∈ l ∧ p c = false) := by
  intro b l
  induction l generalizing b with
  | nil => simp [collapseRunsGo]
  | cons x xs ih =>
    intro hmem
    rw [collapseRunsGo] at hmem
    by_cases hx : p x = true
    · simp only [hx, if_true] at hmem
      cases b with
      | true =>
        rcases ih hmem with h | ⟨h1, h2⟩
        · exact Or.inl h
        · exact Or.inr ⟨List.mem_cons_of_mem x h1, h2⟩
      | false =>
        rcases List.mem_cons.mp hmem with h | h
        · exact Or.inl h
        · rcases ih h with h | ⟨h1, h2⟩
          · exact Or.inl h
          · exact Or.inr ⟨List.mem_cons_of_mem x h1, h2⟩
    · simp only [Bool.not_eq_true] at hx
      simp only [hx] at hmem
      rcases List.mem_cons.mp hmem with h | h
      · subst h
        exact Or.inr ⟨List.mem_cons_self c xs, hx⟩
      · rcases ih h with h | ⟨h1, h2⟩
        · exact Or.inl h
        · exact Or.inr ⟨List.mem_cons_of_mem x h1, h2⟩

theorem stripUnderscores_mem {c : Char} {l : List Char} :
    c ∈ stripUnderscores l → c ∈ l := by
  intro hmem
  unfold stripUnderscores at hmem
  rw [List.mem_reverse] at hmem
  have h1 := mem_of_mem_dropWhile hmem
  rw [List.mem_reverse] at h1
  exact mem_of_mem_dropWhile h1

theorem sanitizeChars_mem {c : Char} {l : List Char} :
    c ∈ sanitizeChars l → badChars.contains c = false ∧ isSpaceChar c = false := by
  intro hmem
  unfold sanitizeChars at hmem
  have h4 := stripUnderscores_mem (List.mem_of_mem_take hmem)
  rcases collapseRunsGo_mem h4 with h3 | ⟨h3, _⟩
  · subst h3
    exact ⟨by decide, by decide⟩
  · rcases collapseRunsGo_mem h3 with h2 | ⟨h2, hsp⟩
    · subst h2
      exact ⟨by decide, by decide⟩
    · have := List.mem_filter.mp h2
      refine ⟨?_, hsp⟩
      simpa using this.2

theorem sanitizeChars_length (l : List Char) :
    (sanitizeChars l).length ≤ 200 := by
  unfold sanitizeChars
  simp [List.length_take]

/-! ## Claim C7 (Filename Codec invariants) -/

/-- C7, counterexample.  The claim bounds the derived cache key by 200
characters, but `sanitize_filename` truncates the artist and the title to
200 characters each and the key concatenates both with an underscore, so
two 201-character inputs yield a 401-character key. -/
theorem art_C7_counterexample :
    (deriveKey ⟨List.replicate 201 'a'⟩ ⟨List.replicate 201 'a'⟩).length = 401 ∧
    ¬ (deriveKey ⟨List.replicate 201 'a'⟩ ⟨List.replicate 201 'a'⟩).length ≤ 200 := by
  decide

/-- C7, amended: for all artist and title inputs, the derived cache key
`sanitize(artist) + \x22_\x22 + sanitize(title)` contains none of the
characters removed by the sanitizer, contains no whitespace, and has
length at most 401 (two 200-character halves plus the joining
underscore); the 200-character bound holds for each sanitized half but
not for the combined key. -/
theorem art_C7_amended (artist title : String) :
    (∀ c ∈ (deriveKey artist title).data,
      badChars.contains c = false ∧ isSpaceChar c = false) ∧
    (deriveKey artist title).length ≤ 401 ∧
    (sanitize_filename artist).length ≤ 200 ∧
    (sanitize_filename title).length ≤ 200 := by
  refine ⟨?_, ?_, ?_, ?_⟩
  · intro c hc
    have hc2 : c ∈ sanitizeChars artist.data ++ '_' :: sanitizeChars title.data := hc
    rcases List.mem_append.mp hc2 with h | h
    · exact sanitizeChars_mem h
    · rcases List.mem_cons.mp h with h | h
      · subst h
        exact ⟨by decide, by decide⟩
      · exact sanitizeChars_mem h
  · show (sanitizeChars artist.data ++ '_' :: sanitizeChars title.data).length ≤ 401
    rw [List.length_append]
    have h1 := sanitizeChars_length artist.data
    have h2 := sanitizeChars_length title.data
    simp only [List.length_cons]
    omega
  · exact sanitizeChars_length artist.data
  · exact sanitizeChars_length title.data

/-- C7, witness: the amended bound evaluated at a concrete identity. -/
theorem art_C7_witness :
    (deriveKey "Leonardo da Vinci" "Mona Lisa").length ≤ 401 :=
  (art_C7_amended "Leonardo da Vinci" "Mona Lisa").2.1

/-! ## Claims C5 and C6 (Thumbnail-to-Original Resolver) -/

/-- C5, counterexample.  `toOriginal` is not idempotent: on a URL whose
last segment carries a `px-` size marker but whose host is not the image
store, the Format 3 rewrite strips the marker, and the result no longer
matches any rule, so a second application yields `None` instead of the
same URL. -/
theorem art_C5_counterexample :
    thumbnailToOriginal "https://example.com/thumbnails/300px-foo.jpg" =
      some "https://example.com/thumbnails" ∧
    thumbnailToOriginal "https://example.com/thumbnails" = none := by
  decide

/-- C5, amended: `toOriginal` is idempotent on every result that contains
`upload.wikimedia.org` and no `/thumb/` marker (which covers all outputs
of Formats 1 and 2 whose reconstructed path has no residual `thumb`
segment): applying the resolver to such a result returns it unchanged.
Idempotence fails in general, as the counterexample shows. -/
theorem art_C5_amended (r : String)
    (h1 : containsSub r "upload.wikimedia.org" = true)
    (h2 : containsSub r "/thumb/" = false) :
    thumbnailToOriginal r = some r := by
  have hne : ¬ r = "" := by
    intro he
    rw [he] at h1
    exact absurd h1 (by decide)
  unfold thumbnailToOriginal
  rw [if_neg hne, if_neg (by simp [h2]), thumbFallback,
    if_pos (by simp [h1, h2])]

/-- C5, witness: the amended idempotence applied to a concrete resolver
output. -/
theorem art_C5_witness :
    thumbnailToOriginal "https://upload.wikimedia.org/wikipedia/commons/a/ab/F.jpg" =
      some "https://upload.wikimedia.org/wikipedia/commons/a/ab/F.jpg" :=
  art_C5_amended "https://upload.wikimedia.org/wikipedia/commons/a/ab/F.jpg"
    (by decide) (by decide)

/-- C6, counterexample.  A non-empty URL with no `/thumb/` segment and no
`px-` marker is NOT always returned unchanged: a URL outside
`upload.wikimedia.org` falls off the end of the function and yields
`None`. -/
theorem art_C6_counterexample :
    ("https://example.com/foo.jpg" : String) ≠ "" ∧
    containsSub "https://example.com/foo.jpg" "/thumb/" = false ∧
    containsSub "https://example.com/foo.jpg" "px-" = false ∧
    thumbnailToOriginal "https://example.com/foo.jpg" = none ∧
    thumbnailToOriginal "https://example.com/foo.jpg" ≠
      some "https://example.com/foo.jpg" := by
  decide

/-- C6, amended: a non-empty URL with no `/thumb/` segment and no `px-`
marker is returned unchanged exactly when it contains
`upload.wikimedia.org`; otherwise the resolver returns `None` even though
the URL has no thumbnail marker. -/
theorem art_C6_amended (url : String) (hne : ¬ url = "")
    (h2 : containsSub url "/thumb/" = false)
    (h3 : containsSub url "px-" = false) :
    (containsSub url "upload.wikimedia.org" = true →
      thumbnailToOriginal url = some url) ∧
    (containsSub url "upload.wikimedia.org" = false →
      thumbnailToOriginal url = none) := by
  constructor
  · intro h1
    unfold thumbnailToOriginal
    rw [if_neg hne, if_neg (by simp [h2]), thumbFallback,
      if_pos (by simp [h1, h2])]
  · intro h1
    unfold thumbnailToOriginal
    rw [if_neg hne, if_neg (by simp [h2]), thumbFallback,
      if_neg (by simp [h1]), if_neg (by simp [h3])]

/-- C6, witness: the amended statement applied to a concrete original
URL of the image store. -/
theorem art_C6_witness :
    thumbnailToOriginal "https://upload.wikimedia.org/wikipedia/en/x/yz/G.png" =
      some "https://upload.wikimedia.org/wikipedia/en/x/yz/G.png" :=
  (art_C6_amended "https://upload.wikimedia.org/wikipedia/en/x/yz/G.png"
    (by decide) (by decide) (by decide)).1 (by decide)

/-! ## Quality-loop lemmas -/

theorem compressLoopAux_succ_le (enc : Nat → Nat → Nat → Nat)
    (maxBytes fuel a q w h : Nat) (hle : enc q w h ≤ maxBytes) :
    compressLoopAux enc maxBytes (fuel + 1) a q w h = [⟨a, q, w, h, enc q w h⟩] := by
  simp [compressLoopAux, hle]

theorem compressLoopAux_succ_gt (enc : Nat → Nat → Nat → Nat)
    (maxBytes fuel a q w h : Nat) (hgt : ¬ enc q w h ≤ maxBytes) :
    compressLoopAux enc maxBytes (fuel + 1) a q w h =
      ⟨a, q, w, h, enc q w h⟩ ::
        compressLoopAux enc maxBytes fuel (a + 1) (max 50 (q - 5))
          (if a > 5 ∧ 2 * enc q w h > 3 * maxBytes then w * 9 / 10 else w)
          (if a > 5 ∧ 2 * enc q w h > 3 * maxBytes then h * 9 / 10 else h) := by
  simp only [compressLoopAux, hgt, if_false]
  by_cases hc : a > 5 ∧ 2 * enc q w h > 3 * maxBytes <;> simp [hc]

theorem compressLoopAux_length (enc : Nat → Nat → Nat → Nat) (maxBytes : Nat) :
    ∀ (fuel a q w h : Nat),
      (compressLoopAux enc maxBytes fuel a q w h).length ≤ fuel := by
  intro fuel
  induction fuel with
  | zero => intro a q w h; simp [compressLoopAux]
  | succ n ih =>
    intro a q w h
    by_cases hle : enc q w h ≤ maxBytes
    · rw [compressLoopAux_succ_le _ _ _ _ _ _ _ hle]
      simp
    · rw [compressLoopAux_succ_gt _ _ _ _ _ _ _ hle]
      simpa using ih _ _ _ _

theorem compressLoopAux_ne_nil (enc : Nat → Nat → Nat → Nat)
    (maxBytes fuel a q w h : Nat) (hf : 0 < fuel) :
    compressLoopAux enc maxBytes fuel a q w h ≠ [] := by
  cases fuel with
  | zero => omega
  | succ n =>
    by_cases hle : enc q w h ≤ maxBytes
    · rw [compressLoopAux_succ_le _ _ _ _ _ _ _ hle]
      simp
    · rw [compressLoopAux_succ_gt _ _ _ _ _ _ _ hle]
      simp

theorem compressLoopAux_head (enc : Nat → Nat → Nat → Nat)
    (maxBytes n a q w h : Nat) :
    (compressLoopAux enc maxBytes (n + 1) a q w h).head? =
      some ⟨a, q, w, h, enc q w h⟩ := by
  by_cases hle : enc q w h ≤ maxBytes
  · rw [compressLoopAux_succ_le _ _ _ _ _ _ _ hle]
    rfl
  · rw [compressLoopAux_succ_gt _ _ _ _ _ _ _ hle]
    rfl

theorem compressLoopAux_dropLast (enc : Nat → Nat → Nat → Nat) (maxBytes : Nat) :
    ∀ (fuel a q w h : Nat) (s : EncodeStep),
      s ∈ (compressLoopAux enc maxBytes fuel a q w h).dropLast →
      maxBytes < s.size := by
  intro fuel
  induction fuel with
  | zero => intro a q w h s hs; simp [compressLoopAux] at hs
  | succ n ih =>
    intro a q w h s hs
    by_cases hle : enc q w h ≤ maxBytes
    · rw [compressLoopAux_succ_le _ _ _ _ _ _ _ hle] at hs
      simp at hs
    · rw [compressLoopAux_succ_gt _ _ _ _ _ _ _ hle] at hs
      cases ht : compressLoopAux enc maxBytes n (a + 1) (max 50 (q - 5))
          (if a > 5 ∧ 2 * enc q w h > 3 * maxBytes then w * 9 / 10 else w)
          (if a > 5 ∧ 2 * enc q w h > 3 * maxBytes then h * 9 / 10 else h) with
      | nil =>
        rw [ht] at hs
        simp at hs
      | cons y t =>
        rw [ht, List.dropLast_cons_of_ne_nil (by simp)] at hs
        rcases List.mem_cons.mp hs with h1 | h1
        · subst h1
          exact Nat.lt_of_not_le hle
        · exact ih _ _ _ _ s (by rw [ht]; exact h1)

theorem compressLoopAux_early (enc : Nat → Nat → Nat → Nat) (maxBytes : Nat) :
    ∀ (fuel a q w h : Nat),
      (compressLoopAux enc maxBytes fuel a q w h).length < fuel →
      ∀ s ∈ (compressLoopAux enc maxBytes fuel a q w h).getLast?,
        s.size ≤ maxBytes := by
  intro fuel
  induction fuel with
  | zero => intro a q w h hl; omega
  | succ n ih =>
    intro a q w h hl s hs
    by_cases hle : enc q w h ≤ maxBytes
    · rw [compressLoopAux_succ_le _ _ _ _ _ _ _ hle] at hs
      simp [Option.mem_def] at hs
      subst hs
      exact hle
    · rw [compressLoopAux_succ_gt _ _ _ _ _ _ _ hle] at hl hs
      cases ht : compressLoopAux enc maxBytes n (a + 1) (max 50 (q - 5))
          (if a > 5 ∧ 2 * enc q w h > 3 * maxBytes then w * 9 / 10 else w)
          (if a > 5 ∧ 2 * enc q w h > 3 * maxBytes then h * 9 / 10 else h) with
      | nil =>
        have hn : 0 < n := by
          rw [ht] at hl
          simp at hl
          omega
        exact absurd ht (compressLoopAux_ne_nil _ _ _ _ _ _ _ hn)
      | cons y t =>
        rw [ht] at hl hs
        rw [List.getLast?_cons_cons] at hs
        have hlen : (compressLoopAux enc maxBytes n (a + 1) (max 50 (q - 5))
            (if a > 5 ∧ 2 * enc q w h > 3 * maxBytes then w * 9 / 10 else w)
            (if a > 5 ∧ 2 * enc q w h > 3 * maxBytes then h * 9 / 10 else h)).length < n := by
          rw [ht]
          simp at hl ⊢
          omega
        have := ih _ _ _ _ hlen s
        rw [ht] at this
        exact this hs

theorem compressLoopAux_chain (enc : Nat → Nat → Nat → Nat) (maxBytes : Nat) :
    ∀ (fuel a q w h : Nat),
      List.Chain' (stepRel maxBytes) (compressLoopAux enc maxBytes fuel a q w h) := by
  intro fuel
  induction fuel with
  | zero => intro a q w h; simp [compressLoopAux]
  | succ n ih =>
    intro a q w h
    by_cases hle : enc q w h ≤ maxBytes
    · rw [compressLoopAux_succ_le _ _ _ _ _ _ _ hle]
      exact List.chain'_singleton _
    · rw [compressLoopAux_succ_gt _ _ _ _ _ _ _ hle]
      rw [List.chain'_cons']
      refine ⟨?_, ih _ _ _ _⟩
      intro y hy
      cases n with
      | zero => simp [compressLoopAux] at hy
      | succ m =>
        rw [compressLoopAux_head] at hy
        simp [Option.mem_def] at hy
        subst hy
        refine ⟨rfl, rfl, ?_, ?_⟩
        · intro hc
          constructor
          · show (if a > 5 ∧ 2 * enc q w h > 3 * maxBytes then w * 9 / 10 else w) =
              w * 9 / 10
            rw [if_pos hc]
          · show (if a > 5 ∧ 2 * enc q w h > 3 * maxBytes then h * 9 / 10 else h) =
              h * 9 / 10
            rw [if_pos hc]
        · intro hc
          constructor
          · show (if a > 5 ∧ 2 * enc q w h > 3 * maxBytes then w * 9 / 10 else w) = w
            rw [if_neg hc]
          · show (if a > 5 ∧ 2 * enc q w h > 3 * maxBytes then h * 9 / 10 else h) = h
            rw [if_neg hc]

theorem mul9div10_le (n : Nat) : n * 9 / 10 ≤ n := by
  calc n * 9 / 10 ≤ n * 10 / 10 := Nat.div_le_div_right (by omega)
    _ = n := Nat.mul_div_cancel n (by norm_num)

theorem compressLoopAux_mem_le (enc : Nat → Nat → Nat → Nat) (maxBytes : Nat) :
    ∀ (fuel a q w h : Nat) (s : EncodeStep),
      s ∈ compressLoopAux enc maxBytes fuel a q w h →
      s.width ≤ w ∧ s.height ≤ h := by
  intro fuel
  induction fuel with
  | zero => intro a q w h s hs; simp [compressLoopAux] at hs
  | succ n ih =>
    intro a q w h s hs
    by_cases hle : enc q w h ≤ maxBytes
    · rw [compressLoopAux_succ_le _ _ _ _ _ _ _ hle] at hs
      simp at hs
      subst hs
      exact ⟨Nat.le_refl w, Nat.le_refl h⟩
    · rw [compressLoopAux_succ_gt _ _ _ _ _ _ _ hle] at hs
      rcases List.mem_cons.mp hs with h1 | h1
      · subst h1
        exact ⟨Nat.le_refl w, Nat.le_refl h⟩
      · have hrec := ih _ _ _ _ s h1
        constructor
        · refine le_trans hrec.1 ?_
          by_cases hc : a > 5 ∧ 2 * enc q w h > 3 * maxBytes
          · rw [if_pos hc]
            exact mul9div10_le w
          · rw [if_neg hc]
        · refine le_trans hrec.2 ?_
          by_cases hc : a > 5 ∧ 2 * enc q w h > 3 * maxBytes
          · rw [if_pos hc]
            exact mul9div10_le h
          · rw [if_neg hc]

/-! ## Claim C1 (iterative compression schedule) -/

/-- C1, counterexample.  With a constant oracle size of 1000 bytes and a
budget of 100 bytes, every measured size exceeds 1.5 times the budget
(2 * 1000 > 3 * 100), so the claim requires the dimensions to shrink
after the 5th attempt, that is at the latest from the encode with
0-based index 5 on.  The code instead shrinks only when the attempt
counter exceeds 5, so the encodes at indices 5 and 6 still use the
original 1000 x 1000 dimensions and the first shrunk encode is index 7. -/
theorem art_C1_counterexample :
    (((compressLoop (fun _ _ _ => 1000) 100 1000 1000)[4]?).map
      (fun s => (s.attempt, s.size, s.width, s.height)) =
        some (4, 1000, 1000, 1000)) ∧
    (((compressLoop (fun _ _ _ => 1000) 100 1000 1000)[5]?).map
      (fun s => (s.width, s.height)) = some (1000, 1000)) ∧
    (((compressLoop (fun _ _ _ => 1000) 100 1000 1000)[6]?).map
      (fun s => (s.width, s.height)) = some (1000, 1000)) ∧
    (((compressLoop (fun _ _ _ => 1000) 100 1000 1000)[7]?).map
      (fun s => (s.width, s.height)) = some (900, 900)) ∧
    2 * 1000 > 3 * 100 := by
  decide

/-- C1, amended: for every over-budget input the loop starts at quality
85, performs at most 20 encode attempts, every attempt except possibly
the last measures over budget, an early exit only happens with the last
measured size within budget, and between consecutive attempts the
quality decreases by 5 with floor 50 while the dimensions shrink by 10
percent exactly when the 0-based attempt counter exceeds 5 (so the first
possible shrink is after the 7th encode, not after the 5th) and the
measured size still exceeds 1.5 times the budget. -/
theorem art_C1_amended (enc : Nat → Nat → Nat → Nat) (maxBytes w h : Nat) :
    (compressLoop enc maxBytes w h).head? = some ⟨0, 85, w, h, enc 85 w h⟩ ∧
    (compressLoop enc maxBytes w h).length ≤ 20 ∧
    (∀ s ∈ (compressLoop enc maxBytes w h).dropLast, maxBytes < s.size) ∧
    ((compressLoop enc maxBytes w h).length < 20 →
      ∀ s ∈ (compressLoop enc maxBytes w h).getLast?, s.size ≤ maxBytes) ∧
    List.Chain' (stepRel maxBytes) (compressLoop enc maxBytes w h) := by
  refine ⟨?_, ?_, ?_, ?_, ?_⟩
  · exact compressLoopAux_head enc maxBytes 19 0 85 w h
  · exact compressLoopAux_length enc maxBytes 20 0 85 w h
  · intro s hs
    exact compressLoopAux_dropLast enc maxBytes 20 0 85 w h s hs
  · intro hlen s hs
    exact compressLoopAux_early enc maxBytes 20 0 85 w h hlen s hs
  · exact compressLoopAux_chain enc maxBytes 20 0 85 w h

/-- C1, witness: the amended loop facts evaluated for a concrete
oracle. -/
theorem art_C1_witness :
    (compressLoop (fun q _ _ => q * 100) 6000 640 480).length ≤ 20 :=
  (art_C1_amended (fun q _ _ => q * 100) 6000 640 480).2.1

/-! ## Claim C10 (dimensions never grow) -/

/-- C10, confirmed: throughout one transcode run the pre-scale never
enlarges either dimension, every encode attempt of the quality loop has
dimensions bounded by the pre-scaled (hence the decoded) input, and the
dimensions are non-increasing between consecutive attempts. -/
theorem art_C10_monotone (enc : Nat → Nat → Nat → Nat)
    (maxBytes sizeBytes maxDim w h : Nat) :
    (preScale sizeBytes maxDim w h).1 ≤ w ∧
    (preScale sizeBytes maxDim w h).2 ≤ h ∧
    (∀ s ∈ compressLoop enc maxBytes (preScale sizeBytes maxDim w h).1
        (preScale sizeBytes maxDim w h).2, s.width ≤ w ∧ s.height ≤ h) ∧
    List.Chain' (fun s t => t.width ≤ s.width ∧ t.height ≤ s.height)
      (compressLoop enc maxBytes (preScale sizeBytes maxDim w h).1
        (preScale sizeBytes maxDim w h).2) := by
  have hps : (preScale sizeBytes maxDim w h).1 ≤ w ∧
      (preScale sizeBytes maxDim w h).2 ≤ h := by
    unfold preScale
    by_cases hs : sizeBytes > 10 * 1048576
    · rw [if_pos hs]
      by_cases hm : max w h > 1200
      · rw [if_pos hm]
        by_cases hwh : w > h
        · rw [if_pos hwh]
          have hw0 : 0 < w := by omega
          refine ⟨?_, ?_⟩
          · show 1200 ≤ w
            have : max w h = w := max_eq_left (Nat.le_of_lt hwh)
            omega
          · show h * 1200 / w ≤ h
            calc h * 1200 / w ≤ h * w / w := by
                  refine Nat.div_le_div_right ?_
                  refine Nat.mul_le_mul_left h ?_
                  have : max w h = w := max_eq_left (Nat.le_of_lt hwh)
                  omega
              _ = h := Nat.mul_div_cancel h hw0
        · rw [if_neg hwh]
          have hhw : w ≤ h := Nat.le_of_not_lt hwh
          have hh0 : 0 < h := by
            have : max w h = h := max_eq_right hhw
            omega
          refine ⟨?_, ?_⟩
          · show w * 1200 / h ≤ w
            calc w * 1200 / h ≤ w * h / h := by
                  refine Nat.div_le_div_right ?_
                  refine Nat.mul_le_mul_left w ?_
                  have : max w h = h := max_eq_right hhw
                  omega
              _ = w := Nat.mul_div_cancel w hh0
          · show 1200 ≤ h
            have : max w h = h := max_eq_right hhw
            omega
      · rw [if_neg hm]
        exact ⟨Nat.le_refl w, Nat.le_refl h⟩
    · rw [if_neg hs]
      by_cases hm : max w h > maxDim
      · rw [if_pos hm]
        by_cases hwh : w > h
        · rw [if_pos hwh]
          have hw0 : 0 < w := by omega
          refine ⟨?_, ?_⟩
          · show maxDim ≤ w
            have : max w h = w := max_eq_left (Nat.le_of_lt hwh)
            omega
          · show h * maxDim / w ≤ h
            calc h * maxDim / w ≤ h * w / w := by
                  refine Nat.div_le_div_right ?_
                  refine Nat.mul_le_mul_left h ?_
                  have : max w h = w := max_eq_left (Nat.le_of_lt hwh)
                  omega
              _ = h := Nat.mul_div_cancel h hw0
        · rw [if_neg hwh]
          have hhw : w ≤ h := Nat.le_of_not_lt hwh
          have hh0 : 0 < h := by
            have : max w h = h := max_eq_right hhw
            omega
          refine ⟨?_, ?_⟩
          · show w * maxDim / h ≤ w
            calc w * maxDim / h ≤ w * h / h := by
                  refine Nat.div_le_div_right ?_
                  refine Nat.mul_le_mul_left w ?_
                  have : max w h = h := max_eq_right hhw
                  omega
              _ = w := Nat.mul_div_cancel w hh0
          · show maxDim ≤ h
            have : max w h = h := max_eq_right hhw
            omega
      · rw [if_neg hm]
        exact ⟨Nat.le_refl w, Nat.le_refl h⟩
  refine ⟨hps.1, hps.2, ?_, ?_⟩
  · intro s hs
    have := compressLoopAux_mem_le enc maxBytes 20 0 85
      (preScale sizeBytes maxDim w h).1 (preScale sizeBytes maxDim w h).2 s hs
    exact ⟨le_trans this.1 hps.1, le_trans this.2 hps.2⟩
  · refine List.Chain'.imp ?_ (compressLoopAux_chain enc maxBytes 20 0 85 _ _)
    intro s t hrel
    by_cases hc : s.attempt > 5 ∧ 2 * s.size > 3 * maxBytes
    · have := hrel.2.2.1 hc
      rw [this.1, this.2]
      exact ⟨mul9div10_le s.width, mul9div10_le s.height⟩
    · have := hrel.2.2.2 hc
      rw [this.1, this.2]
      exact ⟨Nat.le_refl _, Nat.le_refl _⟩

/-- C10, witness: the monotonicity facts evaluated on a concrete run. -/
theorem art_C10_witness :
    (preScale 20971520 2000 6000 3000).1 ≤ 6000 :=
  (art_C10_monotone (fun _ _ _ => 0) 1048576 20971520 2000 6000 3000).1

/-! ## Claim C4 (pre-scale threshold selection) -/

/-- C4, counterexample.  The code selects the aggressive 1200 px cap
whenever the input exceeds an absolute 10 MB (`current_size_mb > 10`),
not 10 times the byte budget: with a 15 MiB input, a 2 MiB budget and a
6000 x 4000 source the code pre-scales to 1200 x 800, while the claimed
rule (15 MiB is below 10 times 2 MiB) would use the configured 2000 px
cap and produce 2000 x 1333. -/
theorem art_C4_counterexample :
    preScale 15728640 2000 6000 4000 = (1200, 800) ∧
    preScaleSpec 15728640 2097152 2000 6000 4000 = (2000, 1333) ∧
    preScale 15728640 2000 6000 4000 ≠
      preScaleSpec 15728640 2097152 2000 6000 4000 := by
  decide

/-- C4, amended: the pre-scale uses the aggressive 1200 px cap exactly
when the input byte size exceeds the absolute threshold of 10 MB
(10 * 1048576 bytes, which agrees with ten times the budget only at the
default 1 MB budget), and otherwise the configured `maxDimension` cap;
in both cases the constrained dimension is pinned to the cap and the
missing dimension is computed by the same ratio with integer truncation
(`floor`), so the aspect ratio is preserved up to rounding. -/
theorem art_C4_amended :
    (∀ sizeBytes maxDim w h, preScale sizeBytes maxDim w h =
      scaleToMax (if sizeBytes > 10 * 1048576 then 1200 else maxDim) w h) ∧
    (∀ maxDim w h, h < w → maxDim < w →
      scaleToMax maxDim w h = (maxDim, h * maxDim / w) ∧
      h * maxDim / w * w ≤ h * maxDim ∧
      h * maxDim < (h * maxDim / w + 1) * w) ∧
    (∀ maxDim w h, w ≤ h → maxDim < h →
      scaleToMax maxDim w h = (w * maxDim / h, maxDim) ∧
      w * maxDim / h * h ≤ w * maxDim ∧
      w * maxDim < (w * maxDim / h + 1) * h) := by
  refine ⟨?_, ?_, ?_⟩
  · intro sizeBytes maxDim w h
    by_cases hs : sizeBytes > 10 * 1048576
    · simp [preScale, scaleToMax, hs]
    · simp [preScale, scaleToMax, hs]
  · intro maxDim w h hwh hm
    have hmax : max w h = w := max_eq_left (Nat.le_of_lt hwh)
    have hw0 : 0 < w := by omega
    refine ⟨?_, Nat.div_mul_le_self _ _, ?_⟩
    · unfold scaleToMax
      rw [if_pos (by omega), if_pos hwh]
    · calc h * maxDim
          = w * (h * maxDim / w) + h * maxDim % w := (Nat.div_add_mod _ _).symm
        _ < w * (h * maxDim / w) + w :=
          Nat.add_lt_add_left (Nat.mod_lt _ hw0) _
        _ = (h * maxDim / w + 1) * w := by ring
  · intro maxDim w h hwh hm
    have hmax : max w h = h := max_eq_right hwh
    have hh0 : 0 < h := by omega
    refine ⟨?_, Nat.div_mul_le_self _ _, ?_⟩
    · unfold scaleToMax
      rw [if_pos (by omega), if_neg (by omega)]
    · calc w * maxDim
          = h * (w * maxDim / h) + w * maxDim % h := (Nat.div_add_mod _ _).symm
        _ < h * (w * maxDim / h) + h :=
          Nat.add_lt_add_left (Nat.mod_lt _ hh0) _
        _ = (w * maxDim / h + 1) * h := by ring

/-- C4, witness: the amended scaling rule evaluated on the spec scenario
dimensions (6000 px long edge, aggressive cap). -/
theorem art_C4_witness :
    scaleToMax 1200 6000 4000 = (1200, 800) := by
  have h := (art_C4_amended.2.1 1200 6000 4000 (by decide) (by decide)).1
  simpa using h

/-! ## Filesystem lemmas -/

theorem append_tmp_ne (p : String) : p ++ ".tmp" ≠ p := by
  intro h
  have h2 := congrArg String.length h
  rw [String.length_append] at h2
  have h3 : (".tmp" : String).length = 4 := rfl
  omega

theorem fsLookup_fsInsert_self (fs : FS) (p : String) (c : FileContent) :
    fsLookup (fsInsert fs p c) p = some c := by
  show (if p = p then some c else fsLookup (fsRemove fs p) p) = some c
  rw [if_pos rfl]

theorem fsLookup_fsRemove_ne (fs : FS) (p p2 : String) (hne : ¬ p = p2) :
    fsLookup (fsRemove fs p) p2 = fsLookup fs p2 := by
  induction fs with
  | nil => rfl
  | cons e fs ih =>
    by_cases he : e.1 = p
    · have he2 : ¬ e.1 = p2 := by rw [he]; exact hne
      rw [fsRemove, if_pos he, ih, fsLookup, if_neg he2]
    · rw [fsRemove, if_neg he, fsLookup, fsLookup]
      by_cases he2 : e.1 = p2
      · rw [if_pos he2, if_pos he2]
      · rw [if_neg he2, if_neg he2, ih]

theorem fsLookup_fsRemove_self (fs : FS) (p : String) :
    fsLookup (fsRemove fs p) p = none := by
  induction fs with
  | nil => rfl
  | cons e fs ih =>
    by_cases he : e.1 = p
    · rw [fsRemove, if_pos he, ih]
    · rw [fsRemove, if_neg he, fsLookup, if_neg he, ih]

theorem fsLookup_fsInsert_ne (fs : FS) (p p2 : String) (c : FileContent)
    (hne : ¬ p = p2) :
    fsLookup (fsInsert fs p c) p2 = fsLookup fs p2 := by
  show (if p = p2 then some c else fsLookup (fsRemove fs p) p2) = fsLookup fs p2
  rw [if_neg hne]
  exact fsLookup_fsRemove_ne fs p p2 hne

theorem runEvents_cons (fs : FS) (e : Ev) (es : List Ev) :
    runEvents fs (e :: es) = runEvents (applyEv fs e) es := rfl

theorem runEvents_snoc (fs : FS) (es : List Ev) (e : Ev) :
    runEvents fs (es ++ [e]) = applyEv (runEvents fs es) e := by
  simp [runEvents, List.foldl_append]

theorem lastWrite (p : String) (f : EncodeStep → FileContent) :
    ∀ (l : List EncodeStep) (fs : FS), l ≠ [] →
      fsLookup (runEvents fs (l.map (fun s => Ev.write p (f s)))) p =
        (l.getLast?).map f := by
  intro l
  induction l with
  | nil => intro fs hl; exact absurd rfl hl
  | cons x t ih =>
    intro fs _
    cases t with
    | nil =>
      show fsLookup (fsInsert fs p (f x)) p = some (f x)
      exact fsLookup_fsInsert_self fs p (f x)
    | cons y t2 =>
      rw [List.map_cons, runEvents_cons, List.getLast?_cons_cons]
      exact ih (applyEv fs (Ev.write p (f x))) (by simp)

theorem runEvents_writes_other (tp pp : String) (hne : ¬ tp = pp)
    (f : EncodeStep → FileContent) :
    ∀ (l : List EncodeStep) (fs : FS),
      fsLookup (runEvents fs (l.map (fun s => Ev.write tp (f s)))) pp =
        fsLookup fs pp := by
  intro l
  induction l with
  | nil => intro fs; rfl
  | cons x t ih =>
    intro fs
    rw [List.map_cons, runEvents_cons]
    rw [ih (applyEv fs (Ev.write tp (f x)))]
    exact fsLookup_fsInsert_ne fs tp pp (f x) hne

theorem fsStates_ne_nil (fs : FS) (l : List Ev) : fsStates fs l ≠ [] := by
  cases l <;> simp [fsStates]

theorem fsStates_append (fs : FS) (l1 l2 : List Ev) :
    fsStates fs (l1 ++ l2) =
      (fsStates fs l1).dropLast ++ fsStates (runEvents fs l1) l2 := by
  induction l1 generalizing fs with
  | nil => simp [fsStates, runEvents]
  | cons e l1 ih =>
    show fs :: fsStates (applyEv fs e) (l1 ++ l2) = _
    rw [ih (applyEv fs e)]
    have h1 : fsStates fs (e :: l1) = fs :: fsStates (applyEv fs e) l1 := rfl
    rw [h1, List.dropLast_cons_of_ne_nil (fsStates_ne_nil _ _), runEvents_cons]
    rfl

theorem fsStates_writes_other (tp pp : String) (hne : ¬ tp = pp)
    (f : EncodeStep → FileContent) :
    ∀ (l : List EncodeStep) (fs : FS),
      ∀ st ∈ fsStates fs (l.map (fun s => Ev.write tp (f s))),
        fsLookup st pp = fsLookup fs pp := by
  intro l
  induction l with
  | nil =>
    intro fs st hst
    simp [fsStates] at hst
    rw [hst]
  | cons x t ih =>
    intro fs st hst
    rw [List.map_cons] at hst
    rcases List.mem_cons.mp hst with h1 | h1
    · rw [h1]
    · rw [ih (applyEv fs (Ev.write tp (f x))) st h1]
      exact fsLookup_fsInsert_ne fs tp pp (f x) hne

/-! ## Claim C2 (output format normalization) -/

theorem lastWriteJpeg (p : String) (l : List EncodeStep) (fs : FS) (hl : l ≠ []) :
    fsLookup (runEvents fs (l.map (fun s =>
        Ev.write p (FileContent.encoded .jpeg s.quality s.width s.height)))) p =
      (l.getLast?).map (fun s =>
        FileContent.encoded .jpeg s.quality s.width s.height) :=
  lastWrite p (fun s => FileContent.encoded .jpeg s.quality s.width s.height) l fs hl

/-- C2, counterexample.  An input already under the byte budget is not
re-encoded: the no-op path renames the downloaded bytes into place, so a
500-byte PNG stays a PNG even though the stored filename says `.jpg`. -/
theorem art_C2_counterexample :
    resizeIfNeededResult (fun _ _ _ => 0) ⟨.png, 500, 100, 100⟩ 1000 "a.tmp" "a.jpg" =
      some (.raw .png 500) ∧
    (resizeIfNeededResult (fun _ _ _ => 0) ⟨.png, 500, 100, 100⟩ 1000
      "a.tmp" "a.jpg").map FileContent.format = some .png ∧
    ImgFormat.png ≠ ImgFormat.jpeg := by
  decide

/-- C2, amended: the transcoder emits JPEG exactly for inputs that exceed
the byte budget (every save of the quality loop is a JPEG encode, and the
last one is what remains at the output path); an input already under
budget is renamed into place byte-for-byte in its original format, with
no re-encode on the no-op path. -/
theorem art_C2_amended (enc : Nat → Nat → Nat → Nat) (img : InputImage)
    (maxBytes : Nat) (inputPath outputPath : String)
    (hne : ¬ inputPath = outputPath) :
    (img.sizeBytes ≤ maxBytes →
      resizeIfNeededResult enc img maxBytes inputPath outputPath =
        some (.raw img.fmt img.sizeBytes)) ∧
    (maxBytes < img.sizeBytes →
      (resizeIfNeededResult enc img maxBytes inputPath outputPath).map
        FileContent.format = some .jpeg) := by
  constructor
  · intro hb
    unfold resizeIfNeededResult resizeIfNeededEvents
    rw [if_pos hb]
    have h0 : fsLookup [(inputPath, FileContent.raw img.fmt img.sizeBytes)]
        inputPath = some (FileContent.raw img.fmt img.sizeBytes) := by
      rw [fsLookup, if_pos rfl]
    show fsLookup (applyEv [(inputPath, FileContent.raw img.fmt img.sizeBytes)]
      (Ev.rename inputPath outputPath)) outputPath = _
    simp only [applyEv]
    rw [h0]
    exact fsLookup_fsInsert_self _ _ _
  · intro hb
    have hbneg : ¬ img.sizeBytes ≤ maxBytes := by omega
    have htne : compressLoop enc maxBytes
        (preScale img.sizeBytes 2000 img.width img.height).1
        (preScale img.sizeBytes 2000 img.width img.height).2 ≠ [] :=
      compressLoopAux_ne_nil enc maxBytes 20 0 85 _ _ (by omega)
    unfold resizeIfNeededResult resizeIfNeededEvents
    rw [if_neg hbneg, runEvents_snoc]
    show (fsLookup (applyEv _ (Ev.remove inputPath)) outputPath).map
      FileContent.format = _
    simp only [applyEv]
    rw [fsLookup_fsRemove_ne _ _ _ hne, lastWriteJpeg _ _ _ htne]
    obtain ⟨s, hs⟩ := Option.isSome_iff_exists.mp
      (List.getLast?_isSome.mpr htne)
    rw [hs]
    rfl

/-- C2, witness: a concrete under-budget GIF stays raw GIF. -/
theorem art_C2_witness :
    resizeIfNeededResult (fun _ _ _ => 0) ⟨.gif, 700, 50, 50⟩ 2000 "b.tmp" "b.jpg" =
      some (.raw .gif 700) :=
  (art_C2_amended (fun _ _ _ => 0) ⟨.gif, 700, 50, 50⟩ 2000 "b.tmp" "b.jpg"
    (by decide)).1 (by decide)

/-! ## Claim C9 (atomic writes) -/

/-- C9, counterexample.  The enrichment resize loop does not write through
a temporary file: every encode attempt saves directly to the canonical
output path, so with an incompressible input a reader can observe an
intermediate over-budget encode (quality 85) at the canonical path that
differs from the final content, and the events include direct writes to
the canonical path. -/
theorem art_C9_counterexample :
    noIntermediateObs [("img.jpg.tmp", .raw .jpeg 5242880)]
      (resizeIfNeededEvents (fun _ _ _ => 2000000) ⟨.jpeg, 5242880, 100, 100⟩
        1048576 "img.jpg.tmp" "img.jpg") "img.jpg" = false ∧
    (resizeIfNeededEvents (fun _ _ _ => 2000000) ⟨.jpeg, 5242880, 100, 100⟩
        1048576 "img.jpg.tmp" "img.jpg").any
      (fun e => match e with
        | Ev.write p _ => decide (p = "img.jpg")
        | _ => false) = true := by
  decide

/-- C9, amended: the standalone resizer does write atomically (all encode
attempts go to `image_path + '.tmp'` and the canonical path only ever
shows its initial or its final content); the enrichment script keeps the
temp-then-rename discipline only on the under-budget path and removes
the temp artifact when the download raises; but its over-budget resize
loop writes every encode attempt directly to the canonical path, as the
counterexample shows. -/
theorem art_C9_amended :
    (∀ (enc : Nat → Nat → Nat → Nat) (img : InputImage)
        (maxBytes maxDim : Nat) (path : String) (c0 : FileContent),
        noIntermediateObs [(path, c0)]
          (resizeToMaxSizeEvents enc img maxBytes maxDim path) path = true) ∧
    (∀ (enc : Nat → Nat → Nat → Nat) (img : InputImage) (maxBytes : Nat)
        (ip op : String) (c0 : FileContent), img.sizeBytes ≤ maxBytes →
        noIntermediateObs [(ip, c0)]
          (resizeIfNeededEvents enc img maxBytes ip op) op = true) ∧
    (∀ (enc : Nat → Nat → Nat → Nat) (url : String) (maxBytes : Nat)
        (filepath : String) (fs0 : FS),
        fsLookup
          (runEvents fs0 (downloadImageEvents enc .exc url maxBytes filepath))
          (filepath ++ ".tmp") = none) := by
  refine ⟨?_, ?_, ?_⟩
  · intro enc img maxBytes maxDim path c0
    unfold noIntermediateObs resizeToMaxSizeEvents
    by_cases hb : img.sizeBytes ≤ maxBytes
    · rw [if_pos hb]
      simp [fsStates]
    · rw [if_neg hb]
      rw [List.all_eq_true]
      intro st hst
      simp only [Bool.or_eq_true, decide_eq_true_eq]
      have hne : ¬ (path ++ ".tmp") = path := append_tmp_ne path
      rw [fsStates_append] at hst
      rcases List.mem_append.mp hst with h1 | h1
      · left
        exact fsStates_writes_other _ _ hne _ _ _ st
          (List.mem_of_mem_dropLast h1)
      · have h2 : st ∈ [runEvents [(path, c0)]
            ((compressLoop enc maxBytes
              (preScale img.sizeBytes maxDim img.width img.height).1
              (preScale img.sizeBytes maxDim img.width img.height).2).map
                (fun s => Ev.write (path ++ ".tmp")
                  (.encoded .jpeg s.quality s.width s.height))),
            applyEv (runEvents [(path, c0)]
              ((compressLoop enc maxBytes
                (preScale img.sizeBytes maxDim img.width img.height).1
                (preScale img.sizeBytes maxDim img.width img.height).2).map
                  (fun s => Ev.write (path ++ ".tmp")
                    (.encoded .jpeg s.quality s.width s.height))))
              (Ev.rename (path ++ ".tmp") path)] := h1
        rcases List.mem_cons.mp h2 with h3 | h3
        · left
          rw [h3]
          exact runEvents_writes_other _ _ hne _ _ _
        · right
          have h4 := List.mem_singleton.mp h3
          rw [h4, runEvents_snoc]
  · intro enc img maxBytes ip op c0 hb
    unfold noIntermediateObs resizeIfNeededEvents
    rw [if_pos hb]
    simp [fsStates, runEvents]
  · intro enc url maxBytes filepath fs0
    exact fsLookup_fsRemove_self fs0 (filepath ++ ".tmp")

/-- C9, witness: the atomic behaviour of the standalone resizer on a
concrete over-budget run. -/
theorem art_C9_witness :
    noIntermediateObs [("p.jpg", .raw .jpeg 5242880)]
      (resizeToMaxSizeEvents (fun _ _ _ => 2000000) ⟨.jpeg, 5242880, 100, 100⟩
        1048576 2000 "p.jpg") "p.jpg" = true :=
  art_C9_amended.1 (fun _ _ _ => 2000000) ⟨.jpeg, 5242880, 100, 100⟩ 1048576 2000
    "p.jpg" (.raw .jpeg 5242880)

/-! ## Claim C3 (cache check before network work) -/

/-- C3, confirmed: whenever the Image Store already holds the derived key
under any recognized extension, `enrich_art_piece` returns that stored
filename immediately: it performs zero network requests and zero
filesystem events, so the store (and in particular the stored file) is
byte-for-byte unchanged. -/
theorem art_C3_cache_hit (o : EnrichOracle) (fs : FS) (artist title f : String)
    (hhit : findExisting fs (deriveKey artist title) = some f) :
    enrichArtPiece o fs artist title = (some ("images/" ++ f), []) ∧
    runEvents fs (enrichArtPiece o fs artist title).2 = fs := by
  have h1 : enrichArtPiece o fs artist title = (some ("images/" ++ f), []) := by
    unfold enrichArtPiece
    simp only [hhit]
  refine ⟨h1, ?_⟩
  rw [h1]
  rfl

/-- C3, witness: a second run over a pre-populated store (a `.png` left by
an earlier run) touches nothing. -/
theorem art_C3_witness :
    enrichArtPiece ⟨fun _ => none, fun _ => none, fun _ => none, fun _ => .exc,
        fun _ _ _ => 0⟩ [("A_B.png", .raw .png 10)] "A" "B" =
      (some "images/A_B.png", []) := by
  have h := art_C3_cache_hit ⟨fun _ => none, fun _ => none, fun _ => none,
    fun _ => .exc, fun _ _ _ => 0⟩ [("A_B.png", .raw .png 10)] "A" "B" "A_B.png"
    (by decide)
  exact h.1.trans (by decide)

/-! ## Claim C8 (locator cascade error handling) -/

/-- C8, counterexample.  A raised network exception in the very first
(structured lookup) request is caught by the outer handler and ends the
whole locate call with `None` after stage 1 only: the cascade does not
continue to stage 2 even though the summary stage held an acceptable
(non-vector, resolvable) candidate. -/
theorem art_C8_counterexample :
    getImageUrl NetResp.exc
      (NetResp.ok ⟨some "https://upload.wikimedia.org/wikipedia/commons/a/ab/F.jpg"⟩)
      (NetResp.ok "") (fun _ => none) = (none, [1]) ∧
    pickMethod2 ⟨some "https://upload.wikimedia.org/wikipedia/commons/a/ab/F.jpg"⟩ =
      some "https://upload.wikimedia.org/wikipedia/commons/a/ab/F.jpg" := by
  decide

/-- The cascade after method 1: whenever the summary stage yields no
candidate (either it answered without a usable thumbnail or its request
failed, both of which `get_page_summary` turns into `None`) and the
rendered-page stage yields no candidate (either the fetched markup
produced nothing or the fetch itself failed), the result is `None` with
stages 1, 2 and 3 issued. -/
theorem getImageUrlAfter1_none (m2 : NetResp SummaryData) (m3 : NetResp String)
    (extract : String → Option String)
    (h2 : ∀ s, m2 = .ok s → pickMethod2 s = none)
    (h3 : ∀ html, m3 = .ok html → extract html = none) :
    getImageUrlAfter1 m2 m3 extract = (none, [1, 2, 3]) := by
  cases m2 with
  | ok s =>
    have hs := h2 s rfl
    cases m3 with
    | ok html => simp [getImageUrlAfter1, hs, h3 html rfl]
    | httpError => simp [getImageUrlAfter1, hs]
    | exc => simp [getImageUrlAfter1, hs]
  | httpError =>
    cases m3 with
    | ok html => simp [getImageUrlAfter1, h3 html rfl]
    | httpError => rfl
    | exc => rfl
  | exc =>
    cases m3 with
    | ok html => simp [getImageUrlAfter1, h3 html rfl]
    | httpError => rfl
    | exc => rfl

/-- C8, amended: when no stage yields a candidate the locator returns
`None` (never a raised error), including the runs where the summary or
rendered-page request itself failed; a network failure at the summary
stage is treated as that stage finding nothing and the cascade continues
to the rendered-page stage; a failure of the rendered-page fetch yields
`None` without any further sub-pattern; but an exception in the first
structured-lookup request aborts the whole cascade with `None` after
stage 1. -/
theorem art_C8_amended :
    (∀ (m1 : NetResp PageImagesData) (m2 : NetResp SummaryData)
        (m3 : NetResp String) (extract : String → Option String),
        (∀ d, m1 = .ok d → pickMethod1 d = none) →
        (∀ s, m2 = .ok s → pickMethod2 s = none) →
        (∀ html, m3 = .ok html → extract html = none) →
        (getImageUrl m1 m2 m3 extract).1 = none) ∧
    (∀ (m1 : NetResp PageImagesData) (m3 : NetResp String)
        (extract : String → Option String),
        getImageUrl m1 .exc m3 extract = getImageUrl m1 .httpError m3 extract) ∧
    (∀ (m1 : NetResp PageImagesData) (m2 : NetResp SummaryData)
        (extract : String → Option String), ¬ m1 = NetResp.exc →
        (∀ d, m1 = .ok d → pickMethod1 d = none) →
        (∀ s, m2 = .ok s → pickMethod2 s = none) →
        getImageUrl m1 m2 .httpError extract = (none, [1, 2, 3]) ∧
        getImageUrl m1 m2 .exc extract = (none, [1, 2, 3])) ∧
    (∀ (d : PageImagesData) (m3 : NetResp String)
        (extract : String → Option String), pickMethod1 d = none →
        (getImageUrl (.ok d) .exc m3 extract).2 = [1, 2, 3]) ∧
    (∀ (m2 : NetResp SummaryData) (m3 : NetResp String)
        (extract : String → Option String),
        getImageUrl .exc m2 m3 extract = (none, [1])) := by
  refine ⟨?_, ?_, ?_, ?_, ?_⟩
  · intro m1 m2 m3 extract h1 h2 h3
    cases m1 with
    | exc => rfl
    | httpError =>
      show (getImageUrlAfter1 m2 m3 extract).1 = none
      rw [getImageUrlAfter1_none m2 m3 extract h2 h3]
    | ok d =>
      simp [getImageUrl, h1 d rfl, getImageUrlAfter1_none m2 m3 extract h2 h3]
  · intro m1 m3 extract
    cases m1 with
    | exc => rfl
    | httpError => rfl
    | ok d =>
      cases hp : pickMethod1 d with
      | none =>
        simp only [getImageUrl, hp]
        rfl
      | some u => simp [getImageUrl, hp]
  · intro m1 m2 extract hne h1 h2
    cases m1 with
    | exc => exact absurd rfl hne
    | httpError =>
      exact ⟨getImageUrlAfter1_none m2 .httpError extract h2 (fun html h => nomatch h),
        getImageUrlAfter1_none m2 .exc extract h2 (fun html h => nomatch h)⟩
    | ok d =>
      have hd := h1 d rfl
      constructor
      · show getImageUrl (.ok d) m2 .httpError extract = (none, [1, 2, 3])
        simp [getImageUrl, hd,
          getImageUrlAfter1_none m2 .httpError extract h2 (fun html h => nomatch h)]
      · show getImageUrl (.ok d) m2 .exc extract = (none, [1, 2, 3])
        simp [getImageUrl, hd,
          getImageUrlAfter1_none m2 .exc extract h2 (fun html h => nomatch h)]
  · intro d m3 extract h1
    cases m3 with
    | ok html =>
      cases hext : extract html <;>
        simp [getImageUrl, getImageUrlAfter1, h1, hext]
    | httpError => simp [getImageUrl, getImageUrlAfter1, h1]
    | exc => simp [getImageUrl, getImageUrlAfter1, h1]
  · intro m2 m3 extract
    rfl

/-- C8, witness: the stage-1 abort behaviour on concrete oracle
answers. -/
theorem art_C8_witness :
    getImageUrl NetResp.exc (NetResp.ok ⟨none⟩) (NetResp.ok "")
      (fun _ => none) = (none, [1]) :=
  art_C8_amended.2.2.2.2 (NetResp.ok ⟨none⟩) (NetResp.ok "") (fun _ => none)
